import Mathlib

/-!
Shallow embedding of the labyrinth board-game engine (src/labyrinth.py).

The `Direction` flag enum is embedded as a 4-bit `Nat` bitmask; the
`Direction.__lshift__` rotation is `Direction.rotate`.  Tiles, the 7x7
board, the shift-and-eject engine (`Game.shift`) and the connectivity
computation (`get_adjacent`, `compute_graph`) are embedded below; machine
details such as Python's wrapping negative indexing and `deque.rotate`
are modelled explicitly (`finOfInt`, modular index arithmetic on `Fin 7`).
-/

namespace Labyrinth

namespace Direction

def NORTH : Nat := 1
def EAST : Nat := 2
def SOUTH : Nat := 4
def WEST : Nat := 8
def NE : Nat := 3
def NW : Nat := 9
def SE : Nat := 6
def SW : Nat := 12
def NS : Nat := 5
def EW : Nat := 10
def NSE : Nat := 7
def NSW : Nat := 13
def NEW : Nat := 11
def SEW : Nat := 14
def NSEW : Nat := 15

/-- Body of `Direction.__lshift__` after the amount has been reduced mod 4:
`rotated = self.value << amount; Direction(rotated & 0xF | (rotated & 0xF0) >> 4)`. -/
def rotN (d k : Nat) : Nat := ((d <<< k) &&& 0xF) ||| (((d <<< k) &&& 0xF0) >>> 4)

/-- `Direction.__lshift__`: `amount %= 4` (Python % on a negative amount
yields a value in 0..3, matching `Int.emod`) and then the circular 4-bit
rotation `rotN`. -/
def rotate (d : Nat) (amount : Int) : Nat := rotN d ((amount % 4).toNat)

end Direction

lemma rotN_comp : ∀ d, d < 16 → ∀ i, i < 4 → ∀ j, j < 4 →
    Direction.rotN (Direction.rotN d i) j = Direction.rotN d ((i + j) % 4) := by decide

lemma rotN_zero : ∀ d, d < 16 → Direction.rotN d 0 = d := by decide

lemma rotN_lt : ∀ d, d < 16 → ∀ k, k < 4 → Direction.rotN d k < 16 := by decide

lemma emod_four_toNat_lt (a : Int) : (a % 4).toNat < 4 := by omega

/-- C8: direction rotation is a group action on the 16 direction sets:
composition adds the amounts mod 4, rotation by 0 and by 4 is the identity,
rotation by a negative amount agrees with rotation by `(4 - amount) % 4`,
and rotation always yields one of the 16 valid direction sets. -/
theorem rotate_group_action (d : Nat) (hd : d < 16) :
    (∀ a b : Int, Direction.rotate (Direction.rotate d a) b =
      Direction.rotate d ((a + b) % 4)) ∧
    Direction.rotate d 0 = d ∧
    Direction.rotate d 4 = d ∧
    (∀ amt : Int, Direction.rotate d (-amt) = Direction.rotate d ((4 - amt) % 4)) ∧
    (∀ a : Int, Direction.rotate d a < 16) := by
  refine ⟨?_, ?_, ?_, ?_, ?_⟩
  · intro a b
    unfold Direction.rotate
    rw [rotN_comp d hd _ (emod_four_toNat_lt a) _ (emod_four_toNat_lt b)]
    congr 1
    omega
  · unfold Direction.rotate
    have h0 : ((0 : Int) % 4).toNat = 0 := by omega
    rw [h0, rotN_zero d hd]
  · unfold Direction.rotate
    have h0 : ((4 : Int) % 4).toNat = 0 := by omega
    rw [h0, rotN_zero d hd]
  · intro amt
    unfold Direction.rotate
    congr 1
    omega
  · intro a
    exact rotN_lt d hd _ (emod_four_toNat_lt a)

/-- Witness for `rotate_group_action` at the concrete direction set 9 (NW). -/
theorem rotate_group_action_witness :
    Direction.rotate (Direction.rotate 9 5) (-3) = Direction.rotate 9 ((5 + (-3)) % 4) ∧
    Direction.rotate 9 0 = 9 :=
  ⟨(rotate_group_action 9 (by decide)).1 5 (-3), (rotate_group_action 9 (by decide)).2.1⟩

/-- `Quest` enum of the 24 collectible items. -/
inductive Quest
  | BAT | BOOK | CANDELABRA | DRAGON | EMERALD | GHOST | HELMET | SPIDER
  | GENIE | KEYS | LIZARD | MAP | CROWN | OWL | POUCH | GOBLIN
  | RING | SCARAB | CHEST | SKULL | WITCH | SWORD | MOUSE | MOTH
deriving DecidableEq

/-- `Color` enum of the 4 player start colors. -/
inductive Color
  | RED | YELLOW | BLUE | GREEN
deriving DecidableEq

/-- `Tile.item : Union[Quest, Color, None]`. -/
inductive Item
  | quest (q : Quest)
  | color (c : Color)
  | empty
deriving DecidableEq

/-- `Tile`: an open-path direction set (4-bit mask) and an optional item. -/
structure Tile where
  path : Nat
  item : Item
deriving DecidableEq

/-- The 7x7 board after construction: every cell holds a tile. -/
abbrev Board := Fin 7 → Fin 7 → Tile

abbrev Cell := Fin 7 × Fin 7

/-- Python wrapping list index on a 7-element row/column: `l[i]` is
`l[i mod 7]` for `-7 <= i < 7` (negative indices count from the end). -/
def finOfInt (z : Int) : Fin 7 := ⟨(z % 7).toNat, by omega⟩

/-- `NAVIGATION`: each compass flag with its (di, dj) offset. -/
def NAVIGATION : List (Nat × Int × Int) :=
  [(Direction.NORTH, -1, 0), (Direction.EAST, 0, 1),
   (Direction.SOUTH, 1, 0), (Direction.WEST, 0, -1)]

/-- `get_adjacent(board, i, j)`: yields the in-bounds neighbors in each
compass direction whose flag is open on the source tile and whose opposite
flag (`dir_ << 2`) is open on the neighbor tile.  The guarded bounds check
makes `finOfInt` the identity on the neighbor coordinates. -/
def get_adjacent (board : Board) (i j : Fin 7) : List Cell :=
  NAVIGATION.filterMap fun nav =>
    let ai : Int := (i : Int) + nav.2.1
    let aj : Int := (j : Int) + nav.2.2
    if (board i j).path &&& nav.1 ≠ 0 ∧ 0 ≤ ai ∧ ai < 7 ∧ 0 ≤ aj ∧ aj < 7 then
      if (board (finOfInt ai) (finOfInt aj)).path &&& Direction.rotate nav.1 2 ≠ 0 then
        some (finOfInt ai, finOfInt aj)
      else none
    else none

/-- One saturation round of the flood fill in `traverse`: keep the explored
set and add every neighbor of an explored cell. -/
def step (b : Board) (s : Finset Cell) : Finset Cell :=
  s ∪ s.biUnion fun c => (get_adjacent b c.1 c.2).toFinset

/-- `compute_graph(board)[c]`: the set of cells reachable from `c` through
mutually open edges.  The recursive depth-first `traverse` of the source is
embedded as saturation of `step`; 49 rounds suffice on a 49-cell board. -/
def compute_graph (b : Board) (c : Cell) : Finset Cell :=
  (step b)^[49] {c}

/-- Game state: the board, the free tile, and the stored connectivity graph
(`self.graph`, recomputed after every successful shift). -/
structure Game where
  board : Board
  free : Tile
  graph : Cell → Finset Cell
deriving DecidableEq

/-- `Game.shift(direction, index, rotation)`.  Exceptions are modelled as
`.error (message, state)` where `state` is the game state observed after the
exception: the even-index `ValueError` is raised before any mutation; an
out-of-range index (`IndexError`) or a row shift whose effective row is a
plain list rather than a deque (`AttributeError`, rows 0/2/4/6) is raised
after the free tile has already been rotated.  `deque.rotate(sign)` on a
7-element row/column is `new[j] = old[(j - sign) mod 7]`, and the eject/swap
`self.free, row[eject] = row[eject], self.free` follows it. -/
def Game.shift (g : Game) (direction : Nat) (index rotation : Int) :
    Except (String × Game) Game :=
  if index % 2 = 0 then
    .error ("board is fixed at row/col " ++ toString index, g)
  else
    let free1 : Tile := ⟨Direction.rotate g.free.path rotation, g.free.item⟩
    if index < -7 ∨ 7 ≤ index then
      .error ("IndexError", { g with free := free1 })
    else
      let k : Fin 7 := finOfInt index
      let ejectIndex : Fin 7 := if direction &&& Direction.NW ≠ 0 then 0 else 6
      let sign : Int := if direction &&& Direction.NW ≠ 0 then 1 else -1
      if direction &&& Direction.EW ≠ 0 then
        if k.val % 2 = 0 then
          .error ("AttributeError", { g with free := free1 })
        else
          let rotatedRow : Fin 7 → Tile := fun j => g.board k (finOfInt ((j : Int) - sign))
          let newBoard : Board :=
            fun i => if i = k then Function.update rotatedRow ejectIndex free1 else g.board i
          .ok ⟨newBoard, rotatedRow ejectIndex, compute_graph newBoard⟩
      else
        let rotatedCol : Fin 7 → Tile := fun i => g.board (finOfInt ((i : Int) - sign)) k
        let newBoard : Board :=
          fun i j => if j = k then Function.update rotatedCol ejectIndex free1 i else g.board i j
        .ok ⟨newBoard, rotatedCol ejectIndex, compute_graph newBoard⟩

/-- A concrete game used for witnesses and counterexamples: distinct-path
tiles everywhere, free tile open NE. -/
def testBoard : Board := fun i j => ⟨(i.val * 7 + j.val) % 15 + 1, Item.empty⟩

def testGame : Game := ⟨testBoard, ⟨Direction.NE, Item.empty⟩, compute_graph testBoard⟩

/-- An all-walls board: every path set is empty, so no cell has neighbors. -/
def board0 : Board := fun _ _ => ⟨0, Item.empty⟩

/-- The corner cell (0,0), named so concrete graph evaluations stay cheap. -/
def c00 : Cell := (0, 0)

lemma finOfInt_eq_of_coe (z : Int) (d1 : Fin 7) (h : (d1 : Int) = z) : finOfInt z = d1 := by
  have hlt := d1.isLt
  apply Fin.ext
  rw [show (finOfInt z).val = (z % 7).toNat from rfl]
  omega

lemma finOfInt_coe (z : Int) (h0 : 0 ≤ z) (h7 : z < 7) : ((finOfInt z : Fin 7) : Int) = z := by
  show (((finOfInt z).val : Nat) : Int) = z
  rw [show (finOfInt z).val = (z % 7).toNat from rfl]
  omega

lemma finOfInt_east : ∀ j : Fin 7, finOfInt ((j : Int) - (-1)) = j + 1 := by decide

lemma finOfInt_west : ∀ j : Fin 7, finOfInt ((j : Int) - 1) = j - 1 := by decide

/-- Characterization of `get_adjacent` membership: a cell is yielded exactly
when it is the in-bounds neighbor in one of the four compass directions, the
source tile has that direction open, and the neighbor tile has the opposite
direction (rotation by 2) open. -/
lemma mem_get_adjacent (b : Board) (i j : Fin 7) (d : Cell) :
    d ∈ get_adjacent b i j ↔ ∃ nav ∈ NAVIGATION,
      ((d.1 : Int) = (i : Int) + nav.2.1 ∧ (d.2 : Int) = (j : Int) + nav.2.2) ∧
      (b i j).path &&& nav.1 ≠ 0 ∧
      (b d.1 d.2).path &&& Direction.rotate nav.1 2 ≠ 0 := by
  unfold get_adjacent
  rw [List.mem_filterMap]
  constructor
  · rintro ⟨nav, hnav, hf⟩
    refine ⟨nav, hnav, ?_⟩
    dsimp only at hf
    split_ifs at hf with h1 h2
    · obtain ⟨hflag, hb⟩ := h1
      rw [Option.some.injEq] at hf
      subst hf
      refine ⟨⟨?_, ?_⟩, hflag, h2⟩
      · exact finOfInt_coe _ hb.1 hb.2.1
      · exact finOfInt_coe _ hb.2.2.1 hb.2.2.2
  · rintro ⟨nav, hnav, ⟨h1, h2⟩, hflag, hop⟩
    refine ⟨nav, hnav, ?_⟩
    dsimp only
    have hd1 := (d.1).isLt
    have hd2 := (d.2).isLt
    have e1 : finOfInt ((i : Int) + nav.2.1) = d.1 := finOfInt_eq_of_coe _ _ h1
    have e2 : finOfInt ((j : Int) + nav.2.2) = d.2 := finOfInt_eq_of_coe _ _ h2
    rw [if_pos ⟨hflag, by omega, by omega, by omega, by omega⟩, e1, e2, if_pos hop]

/-- Edges are mutual: `d` is yielded as a neighbor of `c` exactly when `c` is
yielded as a neighbor of `d`, because the edge rule demands the flag on the
source and the opposite flag on the neighbor. -/
lemma adj_symm_aux (b : Board) (c d : Cell) (h : d ∈ get_adjacent b c.1 c.2) :
    c ∈ get_adjacent b d.1 d.2 := by
  rw [mem_get_adjacent] at h ⊢
  obtain ⟨nav, hnav, ⟨h1, h2⟩, hflag, hop⟩ := h
  fin_cases hnav <;> dsimp only at h1 h2 hflag hop
  · rw [show Direction.rotate Direction.NORTH 2 = Direction.SOUTH from by decide] at hop
    refine ⟨(Direction.SOUTH, 1, 0), by decide, ⟨?_, ?_⟩, ?_, ?_⟩ <;> dsimp only
    · omega
    · omega
    · exact hop
    · rw [show Direction.rotate Direction.SOUTH 2 = Direction.NORTH from by decide]
      exact hflag
  · rw [show Direction.rotate Direction.EAST 2 = Direction.WEST from by decide] at hop
    refine ⟨(Direction.WEST, 0, -1), by decide, ⟨?_, ?_⟩, ?_, ?_⟩ <;> dsimp only
    · omega
    · omega
    · exact hop
    · rw [show Direction.rotate Direction.WEST 2 = Direction.EAST from by decide]
      exact hflag
  · rw [show Direction.rotate Direction.SOUTH 2 = Direction.NORTH from by decide] at hop
    refine ⟨(Direction.NORTH, -1, 0), by decide, ⟨?_, ?_⟩, ?_, ?_⟩ <;> dsimp only
    · omega
    · omega
    · exact hop
    · rw [show Direction.rotate Direction.NORTH 2 = Direction.SOUTH from by decide]
      exact hflag
  · rw [show Direction.rotate Direction.WEST 2 = Direction.EAST from by decide] at hop
    refine ⟨(Direction.EAST, 0, 1), by decide, ⟨?_, ?_⟩, ?_, ?_⟩ <;> dsimp only
    · omega
    · omega
    · exact hop
    · rw [show Direction.rotate Direction.EAST 2 = Direction.WEST from by decide]
      exact hflag

/-- C2: for every pair of in-bounds cells, the connectivity computation
yields an edge from `(i,j)` to its neighbor in compass direction `D` iff the
neighbor exists within the 7x7 bounds, `tile(i,j)` has `D` open, and the
neighbor tile has the opposite direction (`D` rotated by 2) open; and the
edge relation is symmetric, so a one-way opening yields no edge in either
direction. -/
theorem get_adjacent_edge_rule (b : Board) (c d : Cell) :
    (d ∈ get_adjacent b c.1 c.2 ↔ ∃ nav ∈ NAVIGATION,
      ((d.1 : Int) = (c.1 : Int) + nav.2.1 ∧ (d.2 : Int) = (c.2 : Int) + nav.2.2) ∧
      (b c.1 c.2).path &&& nav.1 ≠ 0 ∧
      (b d.1 d.2).path &&& Direction.rotate nav.1 2 ≠ 0) ∧
    (d ∈ get_adjacent b c.1 c.2 ↔ c ∈ get_adjacent b d.1 d.2) :=
  ⟨mem_get_adjacent b c.1 c.2 d, adj_symm_aux b c d, adj_symm_aux b d c⟩

/-- The single-step adjacency relation of the traversal. -/
def Adj (b : Board) (c d : Cell) : Prop := d ∈ get_adjacent b c.1 c.2

lemma subset_step (b : Board) (s : Finset Cell) : s ⊆ step b s := Finset.subset_union_left

lemma step_mono (b : Board) {s t : Finset Cell} (h : s ⊆ t) : step b s ⊆ step b t :=
  Finset.union_subset_union h (Finset.biUnion_subset_biUnion_of_subset_left _ h)

lemma iter_subset_succ (b : Board) (k : Nat) (s : Finset Cell) :
    (step b)^[k] s ⊆ (step b)^[k + 1] s := by
  rw [Function.iterate_succ_apply']
  exact subset_step b _

lemma mem_iter_self (b : Board) (c : Cell) (k : Nat) : c ∈ (step b)^[k] {c} := by
  induction k with
  | zero => simp
  | succ n ih => exact iter_subset_succ b n {c} ih

/-- At every round the saturation either has reached a fixpoint or has grown
past `k` cells. -/
lemma growth (b : Board) (c : Cell) (k : Nat) :
    step b ((step b)^[k] {c}) = (step b)^[k] {c} ∨ k + 1 ≤ ((step b)^[k] {c}).card := by
  induction k with
  | zero => right; simp
  | succ n ih =>
    rcases ih with hfix | hcard
    · left
      rw [Function.iterate_succ_apply', hfix, hfix]
    · by_cases hfix : step b ((step b)^[n] {c}) = (step b)^[n] {c}
      · left
        rw [Function.iterate_succ_apply', hfix, hfix]
      · right
        have hss : (step b)^[n] {c} ⊂ (step b)^[n + 1] {c} := by
          rw [Function.iterate_succ_apply']
          exact ssubset_of_subset_of_ne (subset_step b _) fun he => hfix he.symm
        have := Finset.card_lt_card hss
        omega

lemma card_cells : Fintype.card Cell = 49 := by simp

/-- 49 saturation rounds reach a fixpoint on the 49-cell board. -/
lemma step_fixed (b : Board) (c : Cell) :
    step b ((step b)^[49] {c}) = (step b)^[49] {c} := by
  rcases growth b c 48 with hfix | hcard
  · have h49 : (step b)^[49] {c} = (step b)^[48] {c} := by
      rw [show (49 : Nat) = 48 + 1 from rfl, Function.iterate_succ_apply', hfix]
    rw [h49, hfix]
  · have huniv : (step b)^[48] {c} = Finset.univ := by
      apply Finset.eq_univ_of_card
      have hle := Finset.card_le_univ ((step b)^[48] {c})
      rw [card_cells] at hle
      rw [card_cells]
      omega
    have huniv49 : (step b)^[49] {c} = Finset.univ := by
      apply subset_antisymm (Finset.subset_univ _)
      rw [← huniv]
      exact iter_subset_succ b 48 {c}
    rw [huniv49]
    exact subset_antisymm (Finset.subset_univ _) (subset_step b _)

lemma rtg_of_mem_iter (b : Board) (c : Cell) :
    ∀ k, ∀ d ∈ (step b)^[k] {c}, Relation.ReflTransGen (Adj b) c d := by
  intro k
  induction k with
  | zero =>
    intro d hd
    simp at hd
    subst hd
    exact Relation.ReflTransGen.refl
  | succ n ih =>
    intro d hd
    rw [Function.iterate_succ_apply'] at hd
    rcases Finset.mem_union.mp hd with hd | hd
    · exact ih d hd
    · obtain ⟨x, hx, hdx⟩ := Finset.mem_biUnion.mp hd
      exact Relation.ReflTransGen.tail (ih x hx) (List.mem_toFinset.mp hdx)

lemma mem_of_rtg (b : Board) (c d : Cell) (h : Relation.ReflTransGen (Adj b) c d) :
    d ∈ compute_graph b c := by
  unfold compute_graph
  induction h with
  | refl => exact mem_iter_self b c 49
  | tail hr hadj ih =>
    rw [← step_fixed b c]
    exact Finset.mem_union_right _ (Finset.mem_biUnion.mpr ⟨_, ih, List.mem_toFinset.mpr hadj⟩)

/-- Membership in a computed class is exactly reachability through the
mutual-edge relation. -/
lemma mem_compute_graph_iff (b : Board) (c d : Cell) :
    d ∈ compute_graph b c ↔ Relation.ReflTransGen (Adj b) c d :=
  ⟨fun h => rtg_of_mem_iter b c 49 d h, mem_of_rtg b c d⟩

lemma adj_symm (b : Board) : Symmetric (Adj b) := fun c d h => adj_symm_aux b c d h

/-- C3: for every board, every cell belongs to its own reachability class;
two classes that share any cell are equal; and any two classes are equal or
disjoint, so the classes partition the 49 cells. -/
theorem compute_graph_partition (b : Board) :
    (∀ c : Cell, c ∈ compute_graph b c) ∧
    (∀ c d : Cell, d ∈ compute_graph b c → compute_graph b c = compute_graph b d) ∧
    (∀ c d : Cell, compute_graph b c = compute_graph b d ∨
      Disjoint (compute_graph b c) (compute_graph b d)) := by
  have href : ∀ c : Cell, c ∈ compute_graph b c := fun c => mem_iter_self b c 49
  have heq : ∀ c d : Cell, d ∈ compute_graph b c → compute_graph b c = compute_graph b d := by
    intro c d hd
    have hcd : Relation.ReflTransGen (Adj b) c d := (mem_compute_graph_iff b c d).mp hd
    have hdc : Relation.ReflTransGen (Adj b) d c :=
      Relation.ReflTransGen.symmetric (adj_symm b) hcd
    ext e
    rw [mem_compute_graph_iff, mem_compute_graph_iff]
    exact ⟨fun hce => hdc.trans hce, fun hde => hcd.trans hde⟩
  refine ⟨href, heq, ?_⟩
  intro c d
  by_cases hdis : Disjoint (compute_graph b c) (compute_graph b d)
  · exact Or.inr hdis
  · obtain ⟨e, hec, hed⟩ := Finset.not_disjoint_iff.mp hdis
    exact Or.inl ((heq c e hec).trans (heq d e hed).symm)

/-- Witness for `compute_graph_partition` on the all-walls board at (0,0). -/
theorem compute_graph_partition_witness :
    c00 ∈ compute_graph board0 c00 ∧
    compute_graph board0 c00 = compute_graph board0 c00 :=
  ⟨(compute_graph_partition board0).1 c00,
   (compute_graph_partition board0).2.1 c00 c00 (by decide)⟩

/-- C5: a shift at any even index raises the `ValueError` before any
mutation: the error carries the game state unchanged bit-for-bit, board,
free tile and stored graph included. -/
theorem shift_even_index_rejected (g : Game) (direction : Nat) (index rotation : Int)
    (h : index % 2 = 0) :
    Game.shift g direction index rotation =
      .error ("board is fixed at row/col " ++ toString index, g) := by
  unfold Game.shift
  rw [if_pos h]

/-- Witness for `shift_even_index_rejected` at index 4. -/
theorem shift_even_index_rejected_witness :
    Game.shift testGame Direction.NORTH 4 2 =
      .error ("board is fixed at row/col " ++ toString (4 : Int), testGame) :=
  shift_even_index_rejected testGame Direction.NORTH 4 2 (by decide)

/-- C4 counterexample: a shift with the combined two-flag direction NE at a
valid odd index succeeds instead of raising an invalid-move error. -/
theorem shift_diagonal_not_rejected :
    (Game.shift testGame Direction.NE 1 0).toOption.isSome = true := rfl

/-- C4 amended: a combined direction flag is not rejected; it is silently
masked: the NORTH/WEST bit picks the eviction end and sign, the EAST/WEST
bit picks row versus column, so NE behaves exactly like WEST and NS behaves
exactly like NORTH. -/
theorem shift_diagonal_masked (g : Game) (index rotation : Int) :
    Game.shift g Direction.NE index rotation = Game.shift g Direction.WEST index rotation ∧
    Game.shift g Direction.NS index rotation = Game.shift g Direction.NORTH index rotation :=
  ⟨rfl, rfl⟩

/-- C1 counterexample: shifting row 1 with direction EAST and rotation 0
makes the tile previously at column 0 — not the tile at column 6, which is a
different tile on this board — the new free tile. -/
theorem shift_east_counterexample :
    (Game.shift testGame Direction.EAST 1 0).toOption.map Game.free = some (testBoard 1 0) ∧
    testBoard 1 0 ≠ testBoard 1 6 :=
  ⟨rfl, by decide⟩

/-- C1 amended: shifting an odd row with direction EAST moves every tile one
column to the LEFT: the new tile at column `j < 6` is the old tile at
`j + 1`, the previous free tile (rotated) lands at column 6, the tile
previously at column 0 becomes the new free tile, and all other rows are
untouched.  (In the code, a direction with the NORTH or WEST bit reads the
evicted tile at eject index 0 after rotating by +1, which ejects the tile
originally at index 6; otherwise it reads at eject index 6 after rotating by
-1, ejecting the tile originally at index 0.) -/
theorem shift_east_moves_left (g : Game) (idx : Int) (h : idx = 1 ∨ idx = 3 ∨ idx = 5)
    (rot : Int) :
    ∃ g', Game.shift g Direction.EAST idx rot = .ok g' ∧
      g'.free = g.board (finOfInt idx) 0 ∧
      g'.board = (fun i j => if i = finOfInt idx then
          (if j = 6 then ⟨Direction.rotate g.free.path rot, g.free.item⟩
           else g.board (finOfInt idx) (j + 1))
        else g.board i j) ∧
      g'.graph = compute_graph g'.board := by
  rcases h with h | h | h <;> subst h <;>
  · refine ⟨_, rfl, rfl, ?_, rfl⟩
    funext i j
    dsimp only
    simp only [show (if Direction.EAST &&& Direction.NW ≠ 0 then (0 : Fin 7) else 6) = 6 from rfl,
      show (if Direction.EAST &&& Direction.NW ≠ 0 then (1 : Int) else -1) = -1 from rfl,
      ite_apply, Function.update_apply]
    split_ifs with hi hj
    · rfl
    · rw [finOfInt_east j]
    · rfl

/-- Witness for `shift_east_moves_left` at row 3 of the test game. -/
theorem shift_east_moves_left_witness :
    ∃ g', Game.shift testGame Direction.EAST 3 2 = .ok g' ∧
      g'.free = testGame.board (finOfInt 3) 0 ∧
      g'.board = (fun i j => if i = finOfInt 3 then
          (if j = 6 then ⟨Direction.rotate testGame.free.path 2, testGame.free.item⟩
           else testGame.board (finOfInt 3) (j + 1))
        else testGame.board i j) ∧
      g'.graph = compute_graph g'.board :=
  shift_east_moves_left testGame 3 (by decide) 2

/-- C10: a column shift at the negative odd index -1 is not rejected: the
even-index validation passes (`-1 % 2 = 1`), the free tile is rotated, and
Python's wrapping indexing makes the shift mutate column 6, placing the
rotated free tile on the fixed corner cell (0,6), sliding every column-6
tile down one row, and ejecting the tile at (6,6) into the free slot. -/
theorem shift_negative_index_mutates_fixed (g : Game) (rot : Int) :
    ∃ g', Game.shift g Direction.NORTH (-1) rot = .ok g' ∧
      g'.free = g.board 6 6 ∧
      g'.board = (fun i j => if j = (6 : Fin 7) then
          (if i = 0 then ⟨Direction.rotate g.free.path rot, g.free.item⟩
           else g.board (i - 1) 6)
        else g.board i j) ∧
      g'.graph = compute_graph g'.board := by
  refine ⟨_, rfl, rfl, ?_, rfl⟩
  funext i j
  dsimp only
  simp only [show finOfInt (-1) = (6 : Fin 7) from by decide,
    show (if Direction.NORTH &&& Direction.NW ≠ 0 then (0 : Fin 7) else 6) = 0 from rfl,
    show (if Direction.NORTH &&& Direction.NW ≠ 0 then (1 : Int) else -1) = 1 from rfl,
    ite_apply, Function.update_apply]
  split_ifs with hj hi
  · rfl
  · rw [finOfInt_west i]
  · rfl

/-- `loose_tiles` as built in `Game.__init__` before shuffling: 6 NEW
T-junction quest tiles, 6 NE corner quest tiles, 13 blank EW straights and
9 blank NE corners. -/
def looseTiles : List Tile :=
  [⟨Direction.NEW, Item.quest Quest.BAT⟩,
   ⟨Direction.NEW, Item.quest Quest.DRAGON⟩,
   ⟨Direction.NEW, Item.quest Quest.GENIE⟩,
   ⟨Direction.NEW, Item.quest Quest.GHOST⟩,
   ⟨Direction.NEW, Item.quest Quest.GOBLIN⟩,
   ⟨Direction.NEW, Item.quest Quest.WITCH⟩,
   ⟨Direction.NE, Item.quest Quest.LIZARD⟩,
   ⟨Direction.NE, Item.quest Quest.MOTH⟩,
   ⟨Direction.NE, Item.quest Quest.MOUSE⟩,
   ⟨Direction.NE, Item.quest Quest.SPIDER⟩,
   ⟨Direction.NE, Item.quest Quest.OWL⟩,
   ⟨Direction.NE, Item.quest Quest.SCARAB⟩] ++
  List.replicate 13 ⟨Direction.EW, Item.empty⟩ ++
  List.replicate 9 ⟨Direction.NE, Item.empty⟩

/-- The grid cells that receive movable tiles in `Game.__init__`:
`if i % 2 or j % 2`, i.e. at least one odd coordinate. -/
def movableCells : Finset Cell :=
  Finset.univ.filter fun c => c.1.val % 2 = 1 ∨ c.2.val % 2 = 1

/-- C9 counterexample: the pool of movable tiles built at construction has
length 34, not 18. -/
theorem movable_pool_not_eighteen :
    looseTiles.length = 34 ∧ looseTiles.length ≠ 18 := by decide

/-- C9 amended: the movable pool has exactly 34 tiles; the 33 grid cells
with at least one odd coordinate are each filled from it, and exactly 1 tile
is left over to become the free tile. -/
theorem movable_pool_counts :
    looseTiles.length = 34 ∧ movableCells.card = 33 ∧
    looseTiles.length = movableCells.card + 1 := by decide

/-- `play`'s repeated use of `game.shift`: apply a list of
(direction, index, rotation) moves in order, stopping at the first error. -/
def applyMoves (g : Game) : List (Nat × Int × Int) → Except (String × Game) Game
  | [] => .ok g
  | m :: ms =>
    match g.shift m.1 m.2.1 m.2.2 with
    | .ok g' => applyMoves g' ms
    | .error e => .error e

/-- A shift at a valid odd index succeeds for every direction value and
never touches a cell whose both coordinates are even. -/
lemma shift_valid_ok (g : Game) (dir : Nat) (idx : Int)
    (h : idx = 1 ∨ idx = 3 ∨ idx = 5) (rot : Int) :
    ∃ g', Game.shift g dir idx rot = .ok g' ∧
      ∀ i j : Fin 7, i.val % 2 = 0 → j.val % 2 = 0 → g'.board i j = g.board i j := by
  have h2 : ¬ idx % 2 = 0 := by rcases h with h | h | h <;> subst h <;> decide
  have hr : ¬ (idx < -7 ∨ 7 ≤ idx) := by rcases h with h | h | h <;> subst h <;> decide
  have hodd : ¬ ((finOfInt idx).val % 2 = 0) := by
    rcases h with h | h | h <;> subst h <;> decide
  have hkodd : ∀ i : Fin 7, i.val % 2 = 0 → ¬ i = finOfInt idx := fun i hi he =>
    hodd (he ▸ hi)
  unfold Game.shift
  dsimp only
  rw [if_neg h2, if_neg hr]
  by_cases hew : dir &&& Direction.EW ≠ 0
  · rw [if_pos hew, if_neg hodd]
    refine ⟨_, rfl, ?_⟩
    intro i j hi hj
    dsimp only
    rw [if_neg (hkodd i hi)]
  · rw [if_neg hew]
    refine ⟨_, rfl, ?_⟩
    intro i j hi hj
    dsimp only
    rw [if_neg (hkodd j hj)]

/-- C7: across any sequence of shifts at valid odd indices 1, 3 or 5 (any
direction, any rotation), every cell with both coordinates even keeps its
original fixed tile, path set and occupant unchanged. -/
theorem fixed_cells_invariant (g : Game) (moves : List (Nat × Int × Int))
    (h : ∀ m ∈ moves, m.2.1 = 1 ∨ m.2.1 = 3 ∨ m.2.1 = 5) :
    ∃ g', applyMoves g moves = .ok g' ∧
      ∀ i j : Fin 7, i.val % 2 = 0 → j.val % 2 = 0 → g'.board i j = g.board i j := by
  induction moves generalizing g with
  | nil => exact ⟨g, rfl, fun i j _ _ => rfl⟩
  | cons m ms ih =>
    obtain ⟨g1, hs, hfix1⟩ :=
      shift_valid_ok g m.1 m.2.1 (h m (List.mem_cons_self m ms)) m.2.2
    obtain ⟨g2, happ, hfix2⟩ := ih g1 fun x hx => h x (List.mem_cons_of_mem m hx)
    have hstep : applyMoves g (m :: ms) = applyMoves g1 ms := by
      show (match g.shift m.1 m.2.1 m.2.2 with
        | Except.ok g' => applyMoves g' ms
        | Except.error e => Except.error e) = applyMoves g1 ms
      rw [hs]
    refine ⟨g2, by rw [hstep]; exact happ, ?_⟩
    intro i j hi hj
    rw [hfix2 i j hi hj, hfix1 i j hi hj]

/-- Witness for `fixed_cells_invariant`: two valid shifts on the test game. -/
theorem fixed_cells_invariant_witness :
    ∃ g', applyMoves testGame [(Direction.EAST, 1, 0), (Direction.NORTH, 3, 2)] = .ok g' ∧
      ∀ i j : Fin 7, i.val % 2 = 0 → j.val % 2 = 0 → g'.board i j = testGame.board i j :=
  fixed_cells_invariant testGame [(Direction.EAST, 1, 0), (Direction.NORTH, 3, 2)] (by decide)

/-- Witness for `shift_negative_index_mutates_fixed` on the test game. -/
theorem shift_negative_index_mutates_fixed_witness :
    ∃ g', Game.shift testGame Direction.NORTH (-1) 1 = .ok g' ∧
      g'.free = testGame.board 6 6 ∧
      g'.board = (fun i j => if j = (6 : Fin 7) then
          (if i = 0 then ⟨Direction.rotate testGame.free.path 1, testGame.free.item⟩
           else testGame.board (i - 1) 6)
        else testGame.board i j) ∧
      g'.graph = compute_graph g'.board :=
  shift_negative_index_mutates_fixed testGame 1

/-- Canonical representative of a path set modulo quarter-turn rotation. -/
def Tile.pathKey (p : Nat) : Nat :=
  min (min (Direction.rotate p 0) (Direction.rotate p 1))
      (min (Direction.rotate p 2) (Direction.rotate p 3))

def Tile.key (t : Tile) : Nat × Item := (Tile.pathKey t.path, t.item)

lemma pathKey_rotate (p : Nat) (hp : p < 16) (r : Int) :
    Tile.pathKey (Direction.rotate p r) = Tile.pathKey p := by
  have hfin : ∀ q, q < 16 → ∀ k, k < 4 →
      Tile.pathKey (Direction.rotN q k) = Tile.pathKey q := by decide
  exact hfin p hp _ (emod_four_toNat_lt r)

/-- The identity of a tile up to rotation: the minimal rotation of its path
set, paired with its item. -/
def boardBag (b : Board) : Multiset (Nat × Item) :=
  ∑ i : Fin 7, ∑ j : Fin 7, {Tile.key (b i j)}

def totalBag (g : Game) : Multiset (Nat × Item) :=
  boardBag g.board + {Tile.key g.free}

lemma sum_line_update (A : Fin 7 → Multiset (Nat × Item)) (k : Fin 7)
    (N X Y : Multiset (Nat × Item)) (h : N + X = A k + Y) :
    (∑ i : Fin 7, if i = k then N else A i) + X = (∑ i : Fin 7, A i) + Y := by
  rw [show (∑ i : Fin 7, if i = k then N else A i) =
      ∑ i : Fin 7, Function.update A k N i from
    Finset.sum_congr rfl fun i _ => by rw [Function.update_apply]]
  rw [Finset.sum_update_of_mem (Finset.mem_univ k)]
  rw [Finset.sum_eq_sum_diff_singleton_add (Finset.mem_univ k) A]
  calc N + (∑ x ∈ Finset.univ \ {k}, A x) + X
      = (N + X) + ∑ x ∈ Finset.univ \ {k}, A x := by abel
    _ = (A k + Y) + ∑ x ∈ Finset.univ \ {k}, A x := by rw [h]
    _ = (∑ x ∈ Finset.univ \ {k}, A x) + A k + Y := by abel

lemma bag_swap_line (f : Fin 7 → Tile) (σ : Equiv.Perm (Fin 7)) (e : Fin 7) (t : Tile) :
    (∑ j : Fin 7, ({Tile.key (Function.update (fun x => f (σ x)) e t j)} : Multiset (Nat × Item)))
      + {Tile.key (f (σ e))} =
    (∑ j : Fin 7, ({Tile.key (f j)} : Multiset (Nat × Item))) + {Tile.key t} := by
  have hpt : ∀ j : Fin 7, Function.update (fun x => f (σ x)) e t j =
      Function.update f (σ e) t (σ j) := by
    intro j
    by_cases hj : j = e
    · subst hj
      rw [Function.update_same, Function.update_same]
    · rw [Function.update_noteq hj, Function.update_noteq fun hc => hj (σ.injective hc)]
  rw [Finset.sum_congr rfl fun j _ => by rw [hpt j]]
  rw [Equiv.sum_comp σ fun j => ({Tile.key (Function.update f (σ e) t j)} : Multiset (Nat × Item))]
  rw [show (∑ j : Fin 7, ({Tile.key (Function.update f (σ e) t j)} : Multiset (Nat × Item))) =
      ∑ j : Fin 7, Function.update (fun x => ({Tile.key (f x)} : Multiset (Nat × Item)))
        (σ e) {Tile.key t} j from
    Finset.sum_congr rfl fun j _ => by
      by_cases hj : j = σ e
      · subst hj
        rw [Function.update_same, Function.update_same]
      · rw [Function.update_noteq hj, Function.update_noteq hj]]
  rw [Finset.sum_update_of_mem (Finset.mem_univ (σ e))]
  rw [Finset.sum_eq_sum_diff_singleton_add (Finset.mem_univ (σ e))
    fun j => ({Tile.key (f j)} : Multiset (Nat × Item))]
  abel

lemma totalBag_row_case (g g' : Game) (k e : Fin 7) (σ : Equiv.Perm (Fin 7)) (t : Tile)
    (ht : Tile.key t = Tile.key g.free)
    (hb : ∀ i j, g'.board i j =
      if i = k then Function.update (fun x => g.board k (σ x)) e t j else g.board i j)
    (hfree : g'.free = g.board k (σ e)) :
    totalBag g' = totalBag g := by
  unfold totalBag boardBag
  rw [hfree]
  rw [Finset.sum_congr rfl fun i _ => show
      (∑ j : Fin 7, ({Tile.key (g'.board i j)} : Multiset (Nat × Item))) =
      if i = k then
        ∑ j : Fin 7, ({Tile.key (Function.update (fun x => g.board k (σ x)) e t j)} :
          Multiset (Nat × Item))
      else ∑ j : Fin 7, {Tile.key (g.board i j)} from by
    by_cases hik : i = k
    · subst hik
      rw [if_pos rfl]
      exact Finset.sum_congr rfl fun j _ => by rw [hb, if_pos rfl]
    · rw [if_neg hik]
      exact Finset.sum_congr rfl fun j _ => by rw [hb, if_neg hik]]
  refine sum_line_update _ k _ _ _ ?_
  rw [← ht]
  exact bag_swap_line (g.board k) σ e t

lemma boardBag_transpose (b : Board) : boardBag (fun i j => b j i) = boardBag b := by
  unfold boardBag
  exact Finset.sum_comm

lemma totalBag_col_case (g g' : Game) (k e : Fin 7) (σ : Equiv.Perm (Fin 7)) (t : Tile)
    (ht : Tile.key t = Tile.key g.free)
    (hb : ∀ i j, g'.board i j =
      if j = k then Function.update (fun x => g.board (σ x) k) e t i else g.board i j)
    (hfree : g'.free = g.board (σ e) k) :
    totalBag g' = totalBag g := by
  have h1 : totalBag g' = totalBag ⟨fun i j => g'.board j i, g'.free, g'.graph⟩ := by
    unfold totalBag
    rw [show Game.board ⟨fun i j => g'.board j i, g'.free, g'.graph⟩ =
        fun i j => g'.board j i from rfl, boardBag_transpose]
  have h3 : totalBag (⟨fun i j => g.board j i, g.free, g.graph⟩ : Game) = totalBag g := by
    unfold totalBag
    rw [show Game.board ⟨fun i j => g.board j i, g.free, g.graph⟩ =
        fun i j => g.board j i from rfl, boardBag_transpose]
  rw [h1, ← h3]
  refine totalBag_row_case ⟨fun i j => g.board j i, g.free, g.graph⟩
    ⟨fun i j => g'.board j i, g'.free, g'.graph⟩ k e σ t ht ?_ ?_
  · intro i j
    show g'.board j i = _
    rw [hb j i]
  · show g'.free = _
    rw [hfree]


lemma finOfInt_addRight : ∀ x : Fin 7,
    finOfInt ((x : Int) - (-1)) = (Equiv.addRight (1 : Fin 7)) x := by decide

lemma finOfInt_subRight : ∀ x : Fin 7,
    finOfInt ((x : Int) - 1) = (Equiv.subRight (1 : Fin 7)) x := by decide

/-- C6: after any valid shift (odd index 1/3/5, single cardinal direction),
the multiset of tile keys (path set up to rotation, plus item) over the 49
board cells and the free tile is unchanged: no tile is created, duplicated
or destroyed; moreover the new free tile is a tile taken from the board and
the rotated previous free tile now sits on the board. -/
theorem shift_conserves_tile_multiset (g : Game) (hf : g.free.path < 16) (dir : Nat)
    (hd : dir = Direction.NORTH ∨ dir = Direction.EAST ∨ dir = Direction.SOUTH ∨
      dir = Direction.WEST)
    (idx : Int) (hi : idx = 1 ∨ idx = 3 ∨ idx = 5) (rot : Int) :
    ∃ g', Game.shift g dir idx rot = .ok g' ∧ totalBag g' = totalBag g ∧
      (∃ c : Cell, g'.free = g.board c.1 c.2) ∧
      (∃ c : Cell, g'.board c.1 c.2 = ⟨Direction.rotate g.free.path rot, g.free.item⟩) := by
  have h2 : ¬ idx % 2 = 0 := by rcases hi with h | h | h <;> subst h <;> decide
  have hr : ¬ (idx < -7 ∨ 7 ≤ idx) := by rcases hi with h | h | h <;> subst h <;> decide
  have hodd : ¬ ((finOfInt idx).val % 2 = 0) := by
    rcases hi with h | h | h <;> subst h <;> decide
  have htk : Tile.key ⟨Direction.rotate g.free.path rot, g.free.item⟩ = Tile.key g.free := by
    unfold Tile.key
    dsimp only
    rw [pathKey_rotate g.free.path hf rot]
  unfold Game.shift
  dsimp only
  rw [if_neg h2, if_neg hr]
  rcases hd with hd | hd | hd | hd <;> subst hd
  · -- NORTH: column shift, eject index 0, sign +1
    rw [if_neg (by decide : ¬ (Direction.NORTH &&& Direction.EW ≠ 0))]
    refine ⟨_, rfl, ?_, ⟨(_, _), rfl⟩, ⟨(0, finOfInt idx), ?_⟩⟩
    · refine totalBag_col_case g _ (finOfInt idx) 0 (Equiv.subRight 1)
        ⟨Direction.rotate g.free.path rot, g.free.item⟩ htk ?_ rfl
      intro i j
      dsimp only
      simp only [show (if Direction.NORTH &&& Direction.NW ≠ 0 then (1 : Int) else -1) = 1
          from rfl,
        finOfInt_subRight]
      rfl
    · dsimp only
      rw [if_pos (Eq.refl (finOfInt idx))]
      rfl
  · -- EAST: row shift, eject index 6, sign -1
    rw [if_pos (by decide : Direction.EAST &&& Direction.EW ≠ 0), if_neg hodd]
    refine ⟨_, rfl, ?_, ⟨(_, _), rfl⟩, ⟨(finOfInt idx, 6), ?_⟩⟩
    · refine totalBag_row_case g _ (finOfInt idx) 6 (Equiv.addRight 1)
        ⟨Direction.rotate g.free.path rot, g.free.item⟩ htk ?_ rfl
      intro i j
      dsimp only
      simp only [show (if Direction.EAST &&& Direction.NW ≠ 0 then (1 : Int) else -1) = -1
          from rfl,
        ite_apply, finOfInt_addRight]
      rfl
    · dsimp only
      rw [if_pos (Eq.refl (finOfInt idx))]
      rfl
  · -- SOUTH: column shift, eject index 6, sign -1
    rw [if_neg (by decide : ¬ (Direction.SOUTH &&& Direction.EW ≠ 0))]
    refine ⟨_, rfl, ?_, ⟨(_, _), rfl⟩, ⟨(6, finOfInt idx), ?_⟩⟩
    · refine totalBag_col_case g _ (finOfInt idx) 6 (Equiv.addRight 1)
        ⟨Direction.rotate g.free.path rot, g.free.item⟩ htk ?_ rfl
      intro i j
      dsimp only
      simp only [show (if Direction.SOUTH &&& Direction.NW ≠ 0 then (1 : Int) else -1) = -1
          from rfl,
        finOfInt_addRight]
      rfl
    · dsimp only
      rw [if_pos (Eq.refl (finOfInt idx))]
      rfl
  · -- WEST: row shift, eject index 0, sign +1
    rw [if_pos (by decide : Direction.WEST &&& Direction.EW ≠ 0), if_neg hodd]
    refine ⟨_, rfl, ?_, ⟨(_, _), rfl⟩, ⟨(finOfInt idx, 0), ?_⟩⟩
    · refine totalBag_row_case g _ (finOfInt idx) 0 (Equiv.subRight 1)
        ⟨Direction.rotate g.free.path rot, g.free.item⟩ htk ?_ rfl
      intro i j
      dsimp only
      simp only [show (if Direction.WEST &&& Direction.NW ≠ 0 then (1 : Int) else -1) = 1
          from rfl,
        ite_apply, finOfInt_subRight]
      rfl
    · dsimp only
      rw [if_pos (Eq.refl (finOfInt idx))]
      rfl

/-- Witness for `shift_conserves_tile_multiset`: EAST shift of row 1 on the
test game with rotation 3. -/
theorem shift_conserves_tile_multiset_witness :
    ∃ g', Game.shift testGame Direction.EAST 1 3 = .ok g' ∧
      totalBag g' = totalBag testGame ∧
      (∃ c : Cell, g'.free = testGame.board c.1 c.2) ∧
      (∃ c : Cell, g'.board c.1 c.2 =
        ⟨Direction.rotate testGame.free.path 3, testGame.free.item⟩) :=
  shift_conserves_tile_multiset testGame (by decide) Direction.EAST (by decide) 1
    (by decide) 3

end Labyrinth
